import Mathlib

/-
Verification development for the knowledge-map Streamlit app (src/app.py).

The file shallowly embeds the app's logic over `List Char` (Python strings
are modelled as lists of characters).  The two concatenated scripts in
app.py are modelled separately: the book knowledge-map generator
(lines 21-88) and the EventSense actor-event network (lines 103-203).
External collaborators (the OpenAI oracle, json.loads, the PyVis renderer,
Streamlit widgets) are modelled as parameters or as outcome constructors.
-/

namespace App

/-- Characters treated as whitespace by Python's `str.strip` (ASCII range). -/
def isPySpace (c : Char) : Bool :=
  c = ' ' || c = '\t' || c = '\n' || c = '\r' || c = '\x0b' || c = '\x0c'

/-- Model of Python's `str.strip()`: remove leading and trailing whitespace. -/
def pyStrip (l : List Char) : List Char :=
  ((l.dropWhile isPySpace).reverse.dropWhile isPySpace).reverse

/-- Model of Python's `str.split("\n")`: split on every newline; consecutive
newlines yield empty pieces and the result is never empty. -/
def pySplitNl : List Char → List (List Char)
  | [] => [[]]
  | '\n' :: rest => [] :: pySplitNl rest
  | c :: rest =>
    match pySplitNl rest with
    | [] => [[c]]
    | p :: ps => (c :: p) :: ps

/-- Model of Python's `str.splitlines()` for the common line boundaries
`\r\n`, `\n` and `\r`: a trailing terminator produces no extra empty line
and the empty string has no lines. -/
def pySplitlines : List Char → List (List Char)
  | [] => []
  | '\r' :: '\n' :: rest => [] :: pySplitlines rest
  | '\n' :: rest => [] :: pySplitlines rest
  | '\r' :: rest => [] :: pySplitlines rest
  | c :: rest =>
    match pySplitlines rest with
    | [] => [[c]]
    | p :: ps => (c :: p) :: ps

/-- Model of Python's `line.split("->")`: split on each non-overlapping
occurrence of the two-character arrow token, scanning left to right. -/
def splitArrow : List Char → List (List Char)
  | [] => [[]]
  | '-' :: '>' :: rest => [] :: splitArrow rest
  | c :: rest =>
    match splitArrow rest with
    | [] => [[c]]
    | p :: ps => (c :: p) :: ps

/-- Model of Python's containment test `"->" in line`. -/
def containsArrow : List Char → Bool
  | [] => false
  | '-' :: '>' :: _ => true
  | _ :: rest => containsArrow rest

/-- Number of non-overlapping occurrences of the arrow token `->` in a line,
counted left to right (independent reference definition for the parser). -/
def countArrow : List Char → Nat
  | [] => 0
  | '-' :: '>' :: rest => countArrow rest + 1
  | _ :: rest => countArrow rest

/-- Model of app.py lines 55-63 (per-line part of the book-map parser):
a line yields a `(src, tgt)` concept pair exactly when it passes the
`"->" in line` test, splits into exactly two parts, and both parts are
non-empty after stripping. -/
def parseLine (line : List Char) : Option (List Char × List Char) :=
  if containsArrow line then
    match splitArrow line with
    | [a, b] =>
      let s := pyStrip a
      let t := pyStrip b
      if s ≠ [] ∧ t ≠ [] then some (s, t) else none
    | _ => none
  else none

/-- Model of app.py line 22:
`book_list = [b.strip() for b in books_input.split("\n") if b.strip()]`. -/
def book_list (input : List Char) : List (List Char) :=
  (pySplitNl input).filterMap fun b =>
    if pyStrip b = [] then none else some (pyStrip b)

/-- Spec-side description of list mode: the sequence of the input's lines
with surrounding whitespace trimmed and blank lines removed, in input
order, with no other normalization and no deduplication. -/
def listModeSpec (input : List Char) : List (List Char) :=
  ((pySplitNl input).map pyStrip).filter fun t => t ≠ []

/-- Model of a `networkx.Graph` as used by app.py: an undirected graph
whose nodes are labels, whose edge set stores each undirected edge once
under its first-inserted orientation, together with the single node
attribute (`book` resp. `type`) and the single edge attribute (`book`)
the scripts use.  Re-insertion overwrites attribute values, as in
networkx. -/
@[ext]
structure PyGraph where
  nodes : Finset (List Char)
  edges : Finset (List Char × List Char)
  nodeAttr : List Char → Option (List Char)
  edgeAttr : List Char → List Char → Option (List Char)

/-- Model of `G.add_node(v, attr)`: inserts the node and sets its
attribute (overwriting any previous value, as networkx does). -/
def PyGraph.add_node (G : PyGraph) (v attr : List Char) : PyGraph :=
  { nodes := insert v G.nodes
    edges := G.edges
    nodeAttr := fun x => if x = v then some attr else G.nodeAttr x
    edgeAttr := G.edgeAttr }

/-- Model of `G.add_edge(u, v, attr)`: networkx adds missing endpoints,
stores the undirected edge once (no duplicate in either orientation), and
updates the shared attribute dict of the edge when an attribute is given. -/
def PyGraph.add_edge (G : PyGraph) (u v : List Char) (attr : Option (List Char)) : PyGraph :=
  { nodes := insert u (insert v G.nodes)
    edges := if (u, v) ∈ G.edges ∨ (v, u) ∈ G.edges then G.edges else insert (u, v) G.edges
    nodeAttr := G.nodeAttr
    edgeAttr := fun x y =>
      match attr with
      | none => G.edgeAttr x y
      | some b => if (x = u ∧ y = v) ∨ (x = v ∧ y = u) then some b else G.edgeAttr x y }

/-- The graph `nx.Graph()` starts from (app.py line 52). -/
def emptyGraph : PyGraph :=
  { nodes := ∅, edges := ∅, nodeAttr := fun _ => none, edgeAttr := fun _ _ => none }

/-- Model of the body of the line loop (app.py lines 55-63): a parsed line
adds both concept nodes and the edge, each tagged with the current book. -/
def processLine (G : PyGraph) (book line : List Char) : PyGraph :=
  match parseLine line with
  | some (s, t) => ((G.add_node s book).add_node t book).add_edge s t (some book)
  | none => G

/-- Model of the graph accumulator (app.py lines 53-63) run from an
arbitrary starting graph: iterate over the `(book, text)` entries and over
each text's lines. -/
def buildGraphOn (G : PyGraph) (entries : List (List Char × List Char)) : PyGraph :=
  entries.foldl
    (fun g be => (pySplitlines be.2).foldl (fun g' line => processLine g' be.1 line) g) G

/-- The accumulated book-map graph, starting from the fresh empty graph. -/
def buildGraph (entries : List (List Char × List Char)) : PyGraph :=
  buildGraphOn emptyGraph entries

theorem filterMap_strip_eq (L : List (List Char)) :
    (L.filterMap fun b => if pyStrip b = [] then none else some (pyStrip b)) =
    (L.map pyStrip).filter (fun t => t ≠ []) := by
  induction L with
  | nil => rfl
  | cons b L ih =>
    by_cases h : pyStrip b = [] <;>
      simp [List.filterMap_cons, List.filter_cons, h, ih]

/-- C4: list-mode parsing of the multi-line input (app.py line 22) yields
exactly the input's lines trimmed of surrounding whitespace with blank
lines removed, in input order, with no further normalization and no
deduplication. -/
theorem book_list_eq_listModeSpec (input : List Char) :
    book_list input = listModeSpec input :=
  filterMap_strip_eq (pySplitNl input)

theorem splitArrow_length (l : List Char) :
    (splitArrow l).length = countArrow l + 1 := by
  induction l using splitArrow.induct <;> simp_all [splitArrow, countArrow]

theorem splitArrow_ne_nil (l : List Char) : splitArrow l ≠ [] := by
  intro h
  have := splitArrow_length l
  rw [h] at this
  simp at this

theorem containsArrow_iff (l : List Char) :
    containsArrow l = true ↔ countArrow l ≠ 0 := by
  induction l using countArrow.induct <;> simp_all [containsArrow, countArrow]

theorem parseLine_eq_some (line s t : List Char) :
    parseLine line = some (s, t) ↔
      countArrow line = 1 ∧
        ∃ a b, splitArrow line = [a, b] ∧ s = pyStrip a ∧ t = pyStrip b ∧
          s ≠ [] ∧ t ≠ [] := by
  have hlen := splitArrow_length line
  rcases hsp : splitArrow line with _ | ⟨a, _ | ⟨b, _ | ⟨c, rest⟩⟩⟩
  · exact absurd hsp (splitArrow_ne_nil line)
  · rw [hsp] at hlen
    simp at hlen
    have hc : countArrow line = 0 := by omega
    have hca : containsArrow line = false := by
      cases h : containsArrow line
      · rfl
      · exact absurd ((containsArrow_iff line).mp h) (by simp [hc])
    simp [parseLine, hca, hc]
  · rw [hsp] at hlen
    simp at hlen
    have hc : countArrow line = 1 := by omega
    have hca : containsArrow line = true := (containsArrow_iff line).mpr (by simp [hc])
    constructor
    · intro h
      simp only [parseLine, hca, if_true, hsp] at h
      by_cases hst : pyStrip a ≠ [] ∧ pyStrip b ≠ []
      · rw [if_pos hst] at h
        obtain ⟨hs, ht⟩ : pyStrip a = s ∧ pyStrip b = t := by
          simpa using h
        exact ⟨hc, a, b, rfl, hs.symm, ht.symm, hs ▸ hst.1, ht ▸ hst.2⟩
      · rw [if_neg hst] at h
        exact absurd h (by simp)
    · rintro ⟨-, a', b', hab, hs, ht, hns, hnt⟩
      obtain ⟨h1, h2⟩ : a = a' ∧ b = b' := by simpa using hab
      subst h1; subst h2; subst hs; subst ht
      simp [parseLine, hca, hsp, hns, hnt]
  · rw [hsp] at hlen
    simp only [List.length_cons] at hlen
    have hc : countArrow line ≠ 1 := by omega
    have hca : containsArrow line = true := (containsArrow_iff line).mpr (by omega)
    simp [parseLine, hca, hsp, hc]

/-- C9: a line of oracle text contributes a concept pair (and hence nodes
or an edge) exactly when it contains the arrow token `->` exactly once and
both sides are non-empty after trimming; lines with two or more arrows or
with a blank side are silently dropped and leave the graph unchanged. -/
theorem parseLine_characterization :
    (∀ line s t, parseLine line = some (s, t) ↔
      countArrow line = 1 ∧
        ∃ a b, splitArrow line = [a, b] ∧ s = pyStrip a ∧ t = pyStrip b ∧
          s ≠ [] ∧ t ≠ []) ∧
    (∀ line, countArrow line ≠ 1 → parseLine line = none) ∧
    (∀ line a b, splitArrow line = [a, b] → pyStrip a = [] ∨ pyStrip b = [] →
      parseLine line = none) ∧
    (∀ G book line, parseLine line = none → processLine G book line = G) := by
  refine ⟨parseLine_eq_some, ?_, ?_, ?_⟩
  · intro line h
    cases hp : parseLine line with
    | none => rfl
    | some p =>
      obtain ⟨s, t⟩ := p
      exact absurd ((parseLine_eq_some line s t).mp hp).1 h
  · intro line a b hab hbad
    cases hp : parseLine line with
    | none => rfl
    | some p =>
      obtain ⟨s, t⟩ := p
      obtain ⟨-, a', b', hab', hs, ht, hns, hnt⟩ := (parseLine_eq_some line s t).mp hp
      rw [hab] at hab'
      obtain ⟨rfl, rfl⟩ : a = a' ∧ b = b' := by simpa using hab'
      rcases hbad with h | h
      · exact absurd (hs ▸ h) hns
      · exact absurd (ht ▸ h) hnt
  · intro G book line h
    simp [processLine, h]

/-- Witness for C9 at a concrete input: a line with two arrow tokens is
dropped by the parser. -/
theorem parseLine_characterization_witness :
    parseLine ['a', '-', '>', 'b', '-', '>', 'c'] = none :=
  parseLine_characterization.2.1 _ (by decide)

/-- One parsed `(book, src, tgt)` triple applied to the graph, exactly as
app.py lines 61-63 do for a parsed line. -/
def addTriple (G : PyGraph) (tr : List Char × List Char × List Char) : PyGraph :=
  ((G.add_node tr.2.1 tr.1).add_node tr.2.2 tr.1).add_edge tr.2.1 tr.2.2 (some tr.1)

/-- All `(book, src, tgt)` triples the accumulator processes, in
processing order. -/
def parsedTriples (entries : List (List Char × List Char)) :
    List (List Char × List Char × List Char) :=
  entries.flatMap fun be =>
    (pySplitlines be.2).filterMap fun line =>
      (parseLine line).map fun p => (be.1, p.1, p.2)

theorem foldl_processLine_eq (book : List Char) (lines : List (List Char)) (G : PyGraph) :
    lines.foldl (fun g line => processLine g book line) G =
    (lines.filterMap fun line =>
      (parseLine line).map fun p => (book, p.1, p.2)).foldl addTriple G := by
  induction lines generalizing G with
  | nil => rfl
  | cons line lines ih =>
    simp only [List.foldl_cons, List.filterMap_cons]
    cases hp : parseLine line with
    | none =>
      simp only [hp, Option.map_none']
      rw [show processLine G book line = G from by simp [processLine, hp]]
      exact ih G
    | some p =>
      obtain ⟨s, t⟩ := p
      simp only [hp, Option.map_some']
      rw [show processLine G book line = addTriple G (book, s, t) from by
        simp [processLine, hp, addTriple]]
      exact ih _

theorem buildGraphOn_eq_foldl (entries : List (List Char × List Char)) (G : PyGraph) :
    buildGraphOn G entries = (parsedTriples entries).foldl addTriple G := by
  induction entries generalizing G with
  | nil => rfl
  | cons be entries ih =>
    have h1 : buildGraphOn G (be :: entries) =
        buildGraphOn ((pySplitlines be.2).foldl (fun g line => processLine g be.1 line) G)
          entries := rfl
    rw [h1, ih, foldl_processLine_eq]
    simp only [parsedTriples, List.flatMap_cons, List.foldl_append]

theorem foldl_inv {α β : Type} (P : α → Prop) (f : α → β → α)
    (step : ∀ a b, P a → P (f a b)) :
    ∀ (l : List β) (a : α), P a → P (l.foldl f a) := by
  intro l
  induction l with
  | nil => exact fun a h => h
  | cons x xs ih => exact fun a h => ih _ (step a x h)

/-- Every stored edge's endpoints are in the node set. -/
def edgesClosed (G : PyGraph) : Prop :=
  ∀ p ∈ G.edges, p.1 ∈ G.nodes ∧ p.2 ∈ G.nodes

theorem addTriple_edgesClosed (G : PyGraph) (tr : List Char × List Char × List Char)
    (h : edgesClosed G) : edgesClosed (addTriple G tr) := by
  intro p hp
  simp only [addTriple, PyGraph.add_edge, PyGraph.add_node] at hp ⊢
  by_cases hc : (tr.2.1, tr.2.2) ∈ G.edges ∨ (tr.2.2, tr.2.1) ∈ G.edges
  · rw [if_pos hc] at hp
    have := h p hp
    exact ⟨by simp [Finset.mem_insert, this.1], by simp [Finset.mem_insert, this.2]⟩
  · rw [if_neg hc] at hp
    rcases Finset.mem_insert.mp hp with h1 | h1
    · subst h1
      exact ⟨by simp [Finset.mem_insert], by simp [Finset.mem_insert]⟩
    · have := h p h1
      exact ⟨by simp [Finset.mem_insert, this.1], by simp [Finset.mem_insert, this.2]⟩

/-- C2: in the book-map accumulator every edge of the final graph
references only node labels present in the final node set — the endpoints
are inserted as nodes whenever an edge is added, so no oracle output can
produce a dangling edge. -/
theorem buildGraph_no_dangling_edges (entries : List (List Char × List Char))
    (p : List Char × List Char) (hp : p ∈ (buildGraph entries).edges) :
    p.1 ∈ (buildGraph entries).nodes ∧ p.2 ∈ (buildGraph entries).nodes := by
  have hcl : edgesClosed (buildGraph entries) := by
    rw [buildGraph, buildGraphOn_eq_foldl]
    refine foldl_inv edgesClosed addTriple addTriple_edgesClosed _ _ ?_
    intro q hq
    simp [emptyGraph] at hq
  exact hcl p hp

/-- Witness for C2 at a concrete input: the edge parsed from the line
`X -> Y` has both its endpoints in the node set. -/
theorem buildGraph_no_dangling_edges_witness :
    (['X'] : List Char) ∈ (buildGraph [(['b'], ['X', ' ', '-', '>', ' ', 'Y'])]).nodes ∧
    (['Y'] : List Char) ∈ (buildGraph [(['b'], ['X', ' ', '-', '>', ' ', 'Y'])]).nodes :=
  buildGraph_no_dangling_edges _ (['X'], ['Y']) (by decide)

/-- All node labels mentioned by a triple list. -/
def triplesNodes (ts : List (List Char × List Char × List Char)) : Finset (List Char) :=
  ts.foldr (fun tr acc => insert tr.2.1 (insert tr.2.2 acc)) ∅

theorem foldl_addTriple_nodes (ts : List (List Char × List Char × List Char)) :
    ∀ G : PyGraph, (ts.foldl addTriple G).nodes = G.nodes ∪ triplesNodes ts := by
  induction ts with
  | nil => intro G; simp [triplesNodes]
  | cons tr ts ih =>
    intro G
    rw [List.foldl_cons, ih]
    ext x
    simp only [addTriple, PyGraph.add_edge, PyGraph.add_node, triplesNodes, List.foldr_cons,
      Finset.mem_union, Finset.mem_insert]
    tauto

/-- The undirected edge between `u` and `v` is present (in either stored
orientation). -/
def edgeIn (G : PyGraph) (u v : List Char) : Prop :=
  (u, v) ∈ G.edges ∨ (v, u) ∈ G.edges

theorem addTriple_edges_superset (G : PyGraph) (tr : List Char × List Char × List Char) :
    G.edges ⊆ (addTriple G tr).edges := by
  simp only [addTriple, PyGraph.add_edge, PyGraph.add_node]
  by_cases hc : (tr.2.1, tr.2.2) ∈ G.edges ∨ (tr.2.2, tr.2.1) ∈ G.edges
  · rw [if_pos hc]
  · rw [if_neg hc]
    exact Finset.subset_insert _ _

theorem foldl_addTriple_edges_superset (ts : List (List Char × List Char × List Char)) :
    ∀ G : PyGraph, G.edges ⊆ (ts.foldl addTriple G).edges := by
  induction ts with
  | nil => exact fun G => Finset.Subset.refl _
  | cons tr ts ih =>
    intro G
    exact (addTriple_edges_superset G tr).trans (ih (addTriple G tr))

theorem addTriple_edgeIn_self (G : PyGraph) (tr : List Char × List Char × List Char) :
    edgeIn (addTriple G tr) tr.2.1 tr.2.2 := by
  simp only [edgeIn, addTriple, PyGraph.add_edge, PyGraph.add_node]
  by_cases hc : (tr.2.1, tr.2.2) ∈ G.edges ∨ (tr.2.2, tr.2.1) ∈ G.edges
  · rw [if_pos hc]
    exact hc
  · rw [if_neg hc]
    exact Or.inl (Finset.mem_insert_self _ _)

theorem foldl_addTriple_edgeIn (ts : List (List Char × List Char × List Char)) :
    ∀ (G : PyGraph), ∀ tr ∈ ts, edgeIn (ts.foldl addTriple G) tr.2.1 tr.2.2 := by
  induction ts with
  | nil => intro G tr h; exact absurd h (List.not_mem_nil tr)
  | cons hd ts ih =>
    intro G tr htr
    rcases List.mem_cons.mp htr with rfl | h
    · rw [List.foldl_cons]
      have h1 := addTriple_edgeIn_self G tr
      rcases h1 with h1 | h1
      · exact Or.inl (foldl_addTriple_edges_superset ts _ h1)
      · exact Or.inr (foldl_addTriple_edges_superset ts _ h1)
    · exact ih _ tr h

theorem addTriple_edges_of_edgeIn (G : PyGraph) (tr : List Char × List Char × List Char)
    (h : edgeIn G tr.2.1 tr.2.2) : (addTriple G tr).edges = G.edges := by
  simp only [addTriple, PyGraph.add_edge, PyGraph.add_node]
  exact if_pos h

theorem foldl_addTriple_edges_stable (ts : List (List Char × List Char × List Char)) :
    ∀ G : PyGraph, (∀ tr ∈ ts, edgeIn G tr.2.1 tr.2.2) →
      (ts.foldl addTriple G).edges = G.edges := by
  induction ts with
  | nil => intro G _; rfl
  | cons hd ts ih =>
    intro G h
    have h1 : (addTriple G hd).edges = G.edges :=
      addTriple_edges_of_edgeIn G hd (h hd (List.mem_cons_self hd ts))
    rw [List.foldl_cons, ih _ ?_, h1]
    intro tr htr
    have := h tr (List.mem_cons_of_mem hd htr)
    simp only [edgeIn, h1]
    exact this

/-- The book attribute the latest triple mentioning `v` assigns, if any. -/
def lastBookNode (ts : List (List Char × List Char × List Char)) (v : List Char) :
    Option (List Char) :=
  match ts with
  | [] => none
  | tr :: ts =>
    match lastBookNode ts v with
    | some b => some b
    | none => if v = tr.2.1 ∨ v = tr.2.2 then some tr.1 else none

theorem addTriple_nodeAttr (G : PyGraph) (tr : List Char × List Char × List Char)
    (v : List Char) :
    (addTriple G tr).nodeAttr v =
      if v = tr.2.1 ∨ v = tr.2.2 then some tr.1 else G.nodeAttr v := by
  simp only [addTriple, PyGraph.add_edge, PyGraph.add_node]
  by_cases h1 : v = tr.2.2 <;> by_cases h2 : v = tr.2.1 <;> simp [h1, h2]

theorem foldl_addTriple_nodeAttr (ts : List (List Char × List Char × List Char)) :
    ∀ (G : PyGraph) (v : List Char),
      (ts.foldl addTriple G).nodeAttr v =
        match lastBookNode ts v with
        | some b => some b
        | none => G.nodeAttr v := by
  induction ts with
  | nil => intro G v; rfl
  | cons tr ts ih =>
    intro G v
    rw [List.foldl_cons, ih]
    simp only [lastBookNode]
    cases h : lastBookNode ts v with
    | some b => rfl
    | none =>
      rw [addTriple_nodeAttr]
      by_cases hv : v = tr.2.1 ∨ v = tr.2.2 <;> simp [hv]

/-- The book attribute the latest triple inserting the edge between `x`
and `y` (in either orientation) assigns, if any. -/
def lastBookEdge (ts : List (List Char × List Char × List Char)) (x y : List Char) :
    Option (List Char) :=
  match ts with
  | [] => none
  | tr :: ts =>
    match lastBookEdge ts x y with
    | some b => some b
    | none =>
      if (x = tr.2.1 ∧ y = tr.2.2) ∨ (x = tr.2.2 ∧ y = tr.2.1) then some tr.1 else none

theorem addTriple_edgeAttr (G : PyGraph) (tr : List Char × List Char × List Char)
    (x y : List Char) :
    (addTriple G tr).edgeAttr x y =
      if (x = tr.2.1 ∧ y = tr.2.2) ∨ (x = tr.2.2 ∧ y = tr.2.1) then some tr.1
      else G.edgeAttr x y := rfl

theorem foldl_addTriple_edgeAttr (ts : List (List Char × List Char × List Char)) :
    ∀ (G : PyGraph) (x y : List Char),
      (ts.foldl addTriple G).edgeAttr x y =
        match lastBookEdge ts x y with
        | some b => some b
        | none => G.edgeAttr x y := by
  induction ts with
  | nil => intro G x y; rfl
  | cons tr ts ih =>
    intro G x y
    rw [List.foldl_cons, ih]
    simp only [lastBookEdge]
    cases h : lastBookEdge ts x y with
    | some b => rfl
    | none =>
      rw [addTriple_edgeAttr]
      by_cases hxy : (x = tr.2.1 ∧ y = tr.2.2) ∨ (x = tr.2.2 ∧ y = tr.2.1) <;> simp [hxy]

/-- C3: the graph accumulator is idempotent — re-running it over the same
parsed entries on its own result changes nothing; adding a node with an
equal literal label merges (no second node), and re-adding an edge in the
same or the swapped orientation adds no duplicate edge. -/
theorem buildGraph_idempotent :
    (∀ entries, buildGraphOn (buildGraph entries) entries = buildGraph entries) ∧
    (∀ (G : PyGraph) (v b b' : List Char),
      ((G.add_node v b).add_node v b').nodes = (G.add_node v b).nodes) ∧
    (∀ (G : PyGraph) (u v : List Char) (b b' : Option (List Char)),
      ((G.add_edge u v b).add_edge u v b').edges = (G.add_edge u v b).edges) ∧
    (∀ (G : PyGraph) (u v : List Char) (b b' : Option (List Char)),
      ((G.add_edge u v b).add_edge v u b').edges = (G.add_edge u v b).edges) := by
  refine ⟨?_, ?_, ?_, ?_⟩
  · intro entries
    rw [buildGraph, buildGraphOn_eq_foldl, buildGraphOn_eq_foldl]
    apply PyGraph.ext
    · rw [foldl_addTriple_nodes, foldl_addTriple_nodes]
      simp [emptyGraph]
    · apply foldl_addTriple_edges_stable
      exact foldl_addTriple_edgeIn _ emptyGraph
    · funext v
      rw [foldl_addTriple_nodeAttr, foldl_addTriple_nodeAttr]
      cases h : lastBookNode (parsedTriples entries) v <;> simp [h]
    · funext x y
      rw [foldl_addTriple_edgeAttr, foldl_addTriple_edgeAttr]
      cases h : lastBookEdge (parsedTriples entries) x y <;> simp [h]
  · intro G v b b'
    simp [PyGraph.add_node, Finset.insert_idem]
  · intro G u v b b'
    by_cases hc : (u, v) ∈ G.edges ∨ (v, u) ∈ G.edges
    · simp [PyGraph.add_edge, hc]
    · simp [PyGraph.add_edge, hc]
  · intro G u v b b'
    by_cases hc : (u, v) ∈ G.edges ∨ (v, u) ∈ G.edges
    · simp [PyGraph.add_edge, hc]
      tauto
    · simp [PyGraph.add_edge, hc]

/-- Model of a Python dict assignment `d[k] = v` on an insertion-ordered
association list: an existing key keeps its position and gets the new
value; a new key is appended. -/
def dictInsert : List (List Char × List Char) → List Char → List Char →
    List (List Char × List Char)
  | [], k, v => [(k, v)]
  | (k', v') :: rest, k, v =>
    if k' = k then (k, v) :: rest else (k', v') :: dictInsert rest k v

/-- Model of the book loop (app.py lines 29-47): for each book the oracle
(the `responses.create` call plus output extraction) is invoked with no
try/except around it, and the generated text is stored in the
`concepts_by_book` dict.  An oracle failure is an uncaught exception,
modelled as `Except.error`, which ends the whole loop. -/
def runBooks (oracle : List Char → Except (List Char) (List Char)) :
    List (List Char) → List (List Char × List Char) →
    Except (List Char) (List (List Char × List Char))
  | [], acc => .ok acc
  | b :: rest, acc =>
    match oracle b with
    | .error e => .error e
    | .ok text => runBooks oracle rest (dictInsert acc b text)

/-- Message of app.py line 24. -/
def pleaseEnterMsg : List Char := "Please enter at least one book.".data

/-- Message of app.py line 66. -/
def noConceptsMsg : List Char :=
  "No concepts found or parsed. Try different book titles or check your API response.".data

/-- Observable outcome of one Generate-Map button action: the `st.error`
input complaint (line 24), an uncaught exception that kills the script
run, the `st.warning` for an empty graph (line 66), or the rendered
visualization (lines 68-79). -/
inductive MapOutcome where
  | inputError (msg : List Char)
  | crashed (e : List Char)
  | warned (msg : List Char)
  | rendered (G : PyGraph)

/-- Model of the Generate-Map action (app.py lines 21-79): parse the book
list, complain if it is empty, run the oracle loop (uncaught failures end
the run), accumulate the graph, warn when it has no nodes, otherwise
visualize it. -/
def generateMap (oracle : List Char → Except (List Char) (List Char))
    (input : List Char) : MapOutcome :=
  if book_list input = [] then .inputError pleaseEnterMsg
  else
    match runBooks oracle (book_list input) [] with
    | .error e => .crashed e
    | .ok entries =>
      if (buildGraph entries).nodes.card = 0 then .warned noConceptsMsg
      else .rendered (buildGraph entries)

/-- Oracle that fails on the book `A` and answers `t` for any other book
(used to exercise the failure path at a concrete input). -/
def failingOracle : List Char → Except (List Char) (List Char) :=
  fun b => if b = ['A'] then .error ['x'] else .ok ['t']

/-- Counterexample for C1: with two books `A` and `B` where only the
oracle call for `A` fails, the whole generation action dies with the
uncaught failure — the failure is not caught individually, `B` is never
rendered, and no partial result appears. -/
theorem generateMap_failure_counterexample :
    generateMap failingOracle ['A', '\n', 'B'] = MapOutcome.crashed ['x'] ∧
    generateMap failingOracle ['A', '\n', 'B'] ≠
      MapOutcome.rendered (buildGraph [(['B'], ['t'])]) := by
  constructor
  · rfl
  · intro h
    rw [show generateMap failingOracle ['A', '\n', 'B'] = MapOutcome.crashed ['x'] from rfl] at h
    exact MapOutcome.noConfusion h

theorem runBooks_error (oracle : List Char → Except (List Char) (List Char)) :
    ∀ (books : List (List Char)) (acc : List (List Char × List Char)),
      (∃ b ∈ books, ∃ e, oracle b = Except.error e) →
      ∃ e, runBooks oracle books acc = Except.error e := by
  intro books
  induction books with
  | nil =>
    intro acc h
    obtain ⟨b, hb, -⟩ := h
    exact absurd hb (List.not_mem_nil b)
  | cons b0 rest ih =>
    intro acc h
    obtain ⟨b, hb, e, he⟩ := h
    cases hor : oracle b0 with
    | error e0 => exact ⟨e0, by simp [runBooks, hor]⟩
    | ok text =>
      rcases List.mem_cons.mp hb with rfl | hb'
      · rw [hor] at he
        exact absurd he (by simp)
      · have h2 := ih (dictInsert acc b0 text) ⟨b, hb', e, he⟩
        simpa [runBooks, hor] using h2

/-- C1 (amended): a per-item oracle call failure in the book loop is not
caught — if the oracle fails for any book of the parsed list, the entire
generation action aborts with that uncaught failure and no partial result
renders. -/
theorem generateMap_oracle_failure_aborts
    (oracle : List Char → Except (List Char) (List Char)) (input : List Char)
    (h : ∃ b ∈ book_list input, ∃ e, oracle b = Except.error e) :
    ∃ e, generateMap oracle input = MapOutcome.crashed e := by
  obtain ⟨b, hb, e, he⟩ := h
  have hne : book_list input ≠ [] := by
    intro h0
    rw [h0] at hb
    exact absurd hb (List.not_mem_nil b)
  obtain ⟨e', he'⟩ := runBooks_error oracle (book_list input) [] ⟨b, hb, e, he⟩
  refine ⟨e', ?_⟩
  simp only [generateMap]
  rw [if_neg hne, he']

/-- Witness for the amended C1 at a concrete input. -/
theorem generateMap_oracle_failure_aborts_witness :
    ∃ e, generateMap failingOracle ['A', '\n', 'B'] = MapOutcome.crashed e :=
  generateMap_oracle_failure_aborts failingOracle ['A', '\n', 'B']
    ⟨['A'], by decide, ['x'], rfl⟩

/-- C7: when the accumulated graph of a generation action ends up with no
nodes and no edges, the action reports the warning message (`st.warning`,
not the `st.error` input complaint and not an exception) and skips the
visualization step. -/
theorem generateMap_empty_graph_warns
    (oracle : List Char → Except (List Char) (List Char)) (input : List Char)
    (entries : List (List Char × List Char))
    (hne : book_list input ≠ [])
    (hok : runBooks oracle (book_list input) [] = Except.ok entries)
    (hn : (buildGraph entries).nodes = ∅)
    (_he : (buildGraph entries).edges = ∅) :
    generateMap oracle input = MapOutcome.warned noConceptsMsg := by
  simp only [generateMap]
  rw [if_neg hne, hok]
  simp [hn]

/-- Oracle answering every book with empty text (no parsable lines). -/
def emptyTextOracle : List Char → Except (List Char) (List Char) := fun _ => .ok []

/-- Witness for C7 at a concrete input: one book whose oracle text parses
to nothing yields the warning outcome. -/
theorem generateMap_empty_graph_warns_witness :
    generateMap emptyTextOracle ['A'] = MapOutcome.warned noConceptsMsg :=
  generateMap_empty_graph_warns emptyTextOracle ['A'] [(['A'], [])]
    (by decide) rfl (by decide) (by decide)

/-- Actor record of the event schema (app.py lines 129, 191-192). -/
structure Actor where
  id : List Char
  name : List Char
  role : List Char

/-- Location record of the event schema (app.py line 130); coordinates are
unvalidated floats. -/
structure EvLocation where
  name : List Char
  lat : Float
  lon : Float

/-- Citation record of the event schema (app.py line 133). -/
structure EvSource where
  doc_id : List Char
  url : List Char
  span : List Char

/-- Event record of the schema requested from the oracle (app.py
lines 123-136): a flat record, dates are unvalidated strings and
`confidence` an unchecked float. -/
structure Event where
  event_id : List Char
  title : List Char
  start_date : List Char
  end_date : Option (List Char)
  actors : List Actor
  location : Option EvLocation
  themes : List (List Char)
  description : List Char
  sources : List EvSource
  confidence : Float

/-- Model of Python's `", ".join(xs)`. -/
def pyJoin (sep : List Char) : List (List Char) → List Char
  | [] => []
  | [x] => x
  | x :: xs => x ++ sep ++ pyJoin sep xs

/-- One row of `timeline_data` (app.py lines 158-166). -/
structure TimelineRow where
  title : List Char
  date : List Char
  actors : List Char
  themes : List Char

/-- Builds one timeline row from an event (app.py lines 159-164). -/
def timelineRow (e : Event) : TimelineRow :=
  { title := e.title
    date := e.start_date
    actors := pyJoin [',', ' '] (e.actors.map Actor.name)
    themes := pyJoin [',', ' '] e.themes }

/-- The `"Event: "` label of an event node (app.py line 189). -/
def eventNode (e : Event) : List Char :=
  ['E', 'v', 'e', 'n', 't', ':', ' '] ++ e.title

/-- The `"Actor: "` label of an actor node (app.py line 192). -/
def actorNode (a : Actor) : List Char :=
  ['A', 'c', 't', 'o', 'r', ':', ' '] ++ a.name

/-- Model of the actor-event network construction (app.py lines 186-194):
for each event add its event node, then for each of its actors add the
actor node and an edge from the actor node to the event node. -/
def buildActorEventGraph (events : List Event) : PyGraph :=
  events.foldl
    (fun G e =>
      e.actors.foldl
        (fun g a =>
          (g.add_node (actorNode a) ['a', 'c', 't', 'o', 'r']).add_edge
            (actorNode a) (eventNode e) none)
        (G.add_node (eventNode e) ['e', 'v', 'e', 'n', 't']))
    emptyGraph

/-- A label carrying the `"Event: "` marker. -/
def isEventLabel (v : List Char) : Prop :=
  ∃ r, v = ['E', 'v', 'e', 'n', 't', ':', ' '] ++ r

/-- A label carrying the `"Actor: "` marker. -/
def isActorLabel (v : List Char) : Prop :=
  ∃ r, v = ['A', 'c', 't', 'o', 'r', ':', ' '] ++ r

theorem actorEventStep_inv (e : Event) :
    ∀ (actors : List Actor) (g : PyGraph),
      ((∀ v ∈ g.nodes, isEventLabel v ∨ isActorLabel v) ∧
        (∀ p ∈ g.edges, isActorLabel p.1 ∧ isEventLabel p.2)) →
      ((∀ v ∈ (actors.foldl
          (fun g a => (g.add_node (actorNode a) ['a', 'c', 't', 'o', 'r']).add_edge
            (actorNode a) (eventNode e) none) g).nodes, isEventLabel v ∨ isActorLabel v) ∧
        (∀ p ∈ (actors.foldl
          (fun g a => (g.add_node (actorNode a) ['a', 'c', 't', 'o', 'r']).add_edge
            (actorNode a) (eventNode e) none) g).edges, isActorLabel p.1 ∧ isEventLabel p.2)) := by
  intro actors
  induction actors with
  | nil => exact fun g h => h
  | cons a actors ih =>
    intro g h
    refine ih _ ⟨?_, ?_⟩
    · intro v hv
      simp only [PyGraph.add_edge, PyGraph.add_node, Finset.mem_insert] at hv
      rcases hv with rfl | rfl | rfl | hv
      · exact Or.inr ⟨a.name, rfl⟩
      · exact Or.inl ⟨e.title, rfl⟩
      · exact Or.inr ⟨a.name, rfl⟩
      · exact h.1 v hv
    · intro p hp
      simp only [PyGraph.add_edge, PyGraph.add_node] at hp
      by_cases hc : (actorNode a, eventNode e) ∈ g.edges ∨ (eventNode e, actorNode a) ∈ g.edges
      · rw [if_pos hc] at hp
        exact h.2 p hp
      · rw [if_neg hc] at hp
        rcases Finset.mem_insert.mp hp with rfl | hp
        · exact ⟨⟨a.name, rfl⟩, ⟨e.title, rfl⟩⟩
        · exact h.2 p hp

/-- C10: the actor-event network is bipartite by construction — every node
label carries the `"Event: "` or the `"Actor: "` marker, no label carries
both (so an actor and an event with the same name never merge into one
node), and every stored edge joins an actor-labelled node to an
event-labelled node (never actor-actor or event-event). -/
theorem actorEventGraph_bipartite :
    (∀ events, ∀ v ∈ (buildActorEventGraph events).nodes, isEventLabel v ∨ isActorLabel v) ∧
    (∀ v, ¬(isEventLabel v ∧ isActorLabel v)) ∧
    (∀ n : List Char,
      ['E', 'v', 'e', 'n', 't', ':', ' '] ++ n ≠ ['A', 'c', 't', 'o', 'r', ':', ' '] ++ n) ∧
    (∀ events, ∀ p ∈ (buildActorEventGraph events).edges,
      isActorLabel p.1 ∧ isEventLabel p.2) := by
  have main : ∀ events : List Event,
      (∀ v ∈ (buildActorEventGraph events).nodes, isEventLabel v ∨ isActorLabel v) ∧
      (∀ p ∈ (buildActorEventGraph events).edges, isActorLabel p.1 ∧ isEventLabel p.2) := by
    intro events
    rw [buildActorEventGraph]
    refine foldl_inv
      (fun g => (∀ v ∈ g.nodes, isEventLabel v ∨ isActorLabel v) ∧
        (∀ p ∈ g.edges, isActorLabel p.1 ∧ isEventLabel p.2))
      _ ?_ events emptyGraph ⟨by simp [emptyGraph], by simp [emptyGraph]⟩
    intro g e h
    refine actorEventStep_inv e e.actors _ ⟨?_, h.2⟩
    intro v hv
    simp only [PyGraph.add_node, Finset.mem_insert] at hv
    rcases hv with rfl | hv
    · exact Or.inl ⟨e.title, rfl⟩
    · exact h.1 v hv
  refine ⟨fun events => (main events).1, ?_, ?_, fun events => (main events).2⟩
  · rintro v ⟨⟨r, hr⟩, ⟨r', hr'⟩⟩
    rw [hr] at hr'
    simp at hr'
  · intro n h
    simp at h

/-- A concrete single-event response used to exercise the network
construction. -/
def sampleEvents : List Event :=
  [{ event_id := ['e', '1']
     title := ['T']
     start_date := ['d']
     end_date := none
     actors := [{ id := ['i'], name := ['N'], role := ['r'] }]
     location := none
     themes := []
     description := []
     sources := []
     confidence := 1.0 }]

/-- Witness for C10 at a concrete input: the single stored edge joins the
actor-labelled node to the event-labelled node. -/
theorem actorEventGraph_bipartite_witness :
    isActorLabel (['A', 'c', 't', 'o', 'r', ':', ' ', 'N'],
      ['E', 'v', 'e', 'n', 't', ':', ' ', 'T']).1 ∧
    isEventLabel (['A', 'c', 't', 'o', 'r', ':', ' ', 'N'],
      ['E', 'v', 'e', 'n', 't', ':', ' ', 'T']).2 :=
  actorEventGraph_bipartite.2.2.2 sampleEvents
    (['A', 'c', 't', 'o', 'r', ':', ' ', 'N'], ['E', 'v', 'e', 'n', 't', ':', ' ', 'T'])
    (by decide)

/-- What one Fetch-Events action renders (app.py lines 144-202): the
parse-failure `st.error` message if any, the raw response text echoed via
`st.text`, the decoded JSON shown via `st.json`, whether the timeline
chart is drawn, and the actor-event network if one is built.  `st.stop()`
on the failure path means everything after it stays unrendered. -/
structure FetchView where
  parseErrMsg : Option (List Char)
  rawShown : Option (List Char)
  jsonShown : Option (List Event)
  timelineShown : Bool
  network : Option PyGraph

/-- Model of the Fetch-Events action body after the oracle call (app.py
lines 144-202), parameterized by the decode step (`json.loads` plus the
schema reading, an external library call): on a decode failure the
exception is caught, the error is displayed, the raw text is echoed
unmodified and `st.stop()` aborts the action; on success the JSON is
shown, the timeline is drawn when `timeline_data` is non-empty, and the
actor-event network is built and rendered. -/
def fetchEvents (parse : List Char → Except (List Char) (List Event))
    (raw : List Char) : FetchView :=
  match parse raw with
  | .error msg =>
    { parseErrMsg := some msg
      rawShown := some raw
      jsonShown := none
      timelineShown := false
      network := none }
  | .ok events =>
    { parseErrMsg := none
      rawShown := none
      jsonShown := some events
      timelineShown := !(events.map timelineRow).isEmpty
      network := some (buildActorEventGraph events) }

/-- C5: when the decode step fails on a malformed or truncated payload,
the failure is caught, the original raw text is displayed unmodified, and
the action aborts with nothing further rendered — no decoded JSON, no
timeline, no network; moreover the outcome depends only on the one decode
result for the raw text (one call, no retry). -/
theorem fetchEvents_parse_error_aborts :
    (∀ parse raw msg, parse raw = Except.error msg →
      fetchEvents parse raw =
        { parseErrMsg := some msg
          rawShown := some raw
          jsonShown := none
          timelineShown := false
          network := none }) ∧
    (∀ parse parse' raw, parse raw = parse' raw →
      fetchEvents parse raw = fetchEvents parse' raw) := by
  constructor
  · intro parse raw msg h
    simp only [fetchEvents, h]
  · intro parse parse' raw h
    simp only [fetchEvents, h]

/-- A decode step that always fails, standing in for `json.loads` on a
malformed payload. -/
def failingParse : List Char → Except (List Char) (List Event) :=
  fun _ => .error ['b', 'a', 'd']

/-- Witness for C5 at a concrete input: a malformed payload produces the
abort view with the raw text preserved. -/
theorem fetchEvents_parse_error_aborts_witness :
    fetchEvents failingParse ['n', 'o', 't', ' ', 'j', 's', 'o', 'n'] =
      { parseErrMsg := some ['b', 'a', 'd']
        rawShown := some ['n', 'o', 't', ' ', 'j', 's', 'o', 'n']
        jsonShown := none
        timelineShown := false
        network := none } :=
  fetchEvents_parse_error_aborts.1 failingParse ['n', 'o', 't', ' ', 'j', 's', 'o', 'n']
    ['b', 'a', 'd'] rfl

/-- Modelled from the spec: the pairwise variant's pair generator is not
part of src/app.py (only the book-map and event scripts are); per spec
sections 4.3 and 8 it enumerates all unordered pairs of the input list,
each oriented `(i, j)` with `i < j`, scanning left to right. -/
def pairwisePairs {α : Type} : List α → List (α × α)
  | [] => []
  | x :: xs => (xs.map fun y => (x, y)) ++ pairwisePairs xs

/-- The index pairs `(i, j)` with `i < j < n`, in the generator's
enumeration order. -/
def indexPairs (n : Nat) : List (Nat × Nat) :=
  pairwisePairs (List.range n)

/-- Modelled from the spec: the pairwise variant issues exactly one oracle
call per generated pair, sequentially. -/
def runPairwise {α β : Type} (oracle : α × α → β) (l : List α) :
    List ((α × α) × β) :=
  (pairwisePairs l).map fun p => (p, oracle p)

/-- Outcome of the pairwise variant's guard: a user-visible message that
at least two items are needed, or the sequence of oracle calls made. -/
inductive PairwiseOutcome where
  | needTwoItems
  | ran (calls : List ((List Char × List Char) × Bool))

/-- Modelled from the spec: the pairwise variant's entry guard — fewer
than two items yields the user-visible "need at least two items" message
rather than raising; otherwise one oracle call runs per pair. -/
def pairwiseGenerate (oracle : List Char × List Char → Bool)
    (items : List (List Char)) : PairwiseOutcome :=
  if items.length < 2 then .needTwoItems else .ran (runPairwise oracle items)

/-- C6: on the empty input list the pairwise-pair generator produces zero
pairs and the guard reports the need-at-least-two-items message as a
user-visible outcome (the guard is total: no exception is raised). -/
theorem pairwise_empty_input_reports_message :
    pairwisePairs ([] : List (List Char)) = [] ∧
    (∀ oracle, pairwiseGenerate oracle [] = PairwiseOutcome.needTwoItems) :=
  ⟨rfl, fun _ => rfl⟩

theorem two_mul_length_pairwisePairs {α : Type} (l : List α) :
    2 * (pairwisePairs l).length = l.length * (l.length - 1) := by
  induction l with
  | nil => rfl
  | cons x xs ih =>
    simp only [pairwisePairs, List.length_append, List.length_map, List.length_cons,
      Nat.add_sub_cancel]
    have hexp : (xs.length + 1) * xs.length =
        2 * xs.length + xs.length * (xs.length - 1) := by
      cases hx : xs.length with
      | zero => simp
      | succ k =>
        simp only [Nat.succ_sub_one]
        ring
    rw [hexp, ← ih]
    ring

theorem length_pairwisePairs {α : Type} (l : List α) :
    (pairwisePairs l).length = l.length * (l.length - 1) / 2 := by
  have h := two_mul_length_pairwisePairs l
  omega

theorem pairwisePairs_map {α β : Type} (f : α → β) (l : List α) :
    pairwisePairs (l.map f) = (pairwisePairs l).map fun p => (f p.1, f p.2) := by
  induction l with
  | nil => rfl
  | cons x xs ih =>
    simp [pairwisePairs, ih, List.map_map, Function.comp]

theorem map_getD_range {α : Type} (d : α) (l : List α) :
    (List.range l.length).map (fun i => l.getD i d) = l := by
  induction l with
  | nil => rfl
  | cons x xs ih =>
    rw [List.length_cons, List.range_succ_eq_map, List.map_cons, List.map_map]
    have hcomp : ((fun i => (x :: xs).getD i d) ∘ Nat.succ) = fun i => xs.getD i d := by
      funext i
      simp
    rw [List.getD_cons_zero, hcomp, ih]

theorem mem_pairwisePairs_append {α : Type} (l : List α) (a : α) (p : α × α) :
    p ∈ pairwisePairs (l ++ [a]) ↔ p ∈ pairwisePairs l ∨ ∃ x ∈ l, p = (x, a) := by
  induction l with
  | nil => simp [pairwisePairs]
  | cons x xs ih =>
    rw [List.cons_append]
    rw [show pairwisePairs (x :: (xs ++ [a])) =
        ((xs ++ [a]).map fun y => (x, y)) ++ pairwisePairs (xs ++ [a]) from rfl,
      show pairwisePairs (x :: xs) = (xs.map fun y => (x, y)) ++ pairwisePairs xs from rfl]
    constructor
    · intro h
      rcases List.mem_append.mp h with hmap | hrest
      · obtain ⟨y, hy, hxy⟩ := List.mem_map.mp hmap
        rcases List.mem_append.mp hy with hy' | hy'
        · exact Or.inl (List.mem_append.mpr (Or.inl (List.mem_map.mpr ⟨y, hy', hxy⟩)))
        · rcases List.mem_singleton.mp hy' with rfl
          exact Or.inr ⟨x, List.mem_cons_self x xs, hxy.symm⟩
      · rcases ih.mp hrest with h' | ⟨z, hz, hp⟩
        · exact Or.inl (List.mem_append.mpr (Or.inr h'))
        · exact Or.inr ⟨z, List.mem_cons_of_mem x hz, hp⟩
    · intro h
      rcases h with h | ⟨z, hz, hp⟩
      · rcases List.mem_append.mp h with hmap | hrest
        · obtain ⟨y, hy, hxy⟩ := List.mem_map.mp hmap
          exact List.mem_append.mpr
            (Or.inl (List.mem_map.mpr ⟨y, List.mem_append.mpr (Or.inl hy), hxy⟩))
        · exact List.mem_append.mpr (Or.inr (ih.mpr (Or.inl hrest)))
      · rcases List.mem_cons.mp hz with rfl | hz'
        · exact List.mem_append.mpr (Or.inl (List.mem_map.mpr
            ⟨a, List.mem_append.mpr (Or.inr (List.mem_singleton.mpr rfl)), hp.symm⟩))
        · exact List.mem_append.mpr (Or.inr (ih.mpr (Or.inr ⟨z, hz', hp⟩)))

theorem mem_indexPairs (n i j : Nat) :
    (i, j) ∈ indexPairs n ↔ i < j ∧ j < n := by
  induction n with
  | zero => simp [indexPairs, pairwisePairs]
  | succ n ih =>
    rw [indexPairs, List.range_succ, mem_pairwisePairs_append]
    constructor
    · rintro (h | ⟨x, hx, hp⟩)
      · have := ih.mp h
        omega
      · obtain ⟨rfl, rfl⟩ : i = x ∧ j = n := by simpa using hp
        have := List.mem_range.mp hx
        omega
    · rintro ⟨hij, hjn⟩
      by_cases hj : j < n
      · exact Or.inl (ih.mpr ⟨hij, hj⟩)
      · have hj' : j = n := by omega
        subst hj'
        exact Or.inr ⟨i, List.mem_range.mpr hij, rfl⟩

theorem fst_mem_of_mem_pairwisePairs {α : Type} (l : List α) (p : α × α)
    (h : p ∈ pairwisePairs l) : p.1 ∈ l := by
  induction l with
  | nil => simp [pairwisePairs] at h
  | cons x xs ih =>
    simp only [pairwisePairs, List.mem_append, List.mem_map] at h
    rcases h with ⟨y, hy, rfl⟩ | h
    · exact List.mem_cons_self x xs
    · exact List.mem_cons_of_mem x (ih h)

theorem nodup_pairwisePairs {α : Type} (l : List α) (hl : l.Nodup) :
    (pairwisePairs l).Nodup := by
  induction l with
  | nil => exact List.nodup_nil
  | cons x xs ih =>
    simp only [pairwisePairs]
    rcases List.nodup_cons.mp hl with ⟨hx, hxs⟩
    refine List.Nodup.append (List.Nodup.map ?_ hxs) (ih hxs) ?_
    · intro a b h
      simpa using h
    · intro p hp1 hp2
      obtain ⟨y, hy, rfl⟩ := List.mem_map.mp hp1
      have := fst_mem_of_mem_pairwisePairs xs (x, y) hp2
      exact hx this

/-- C8: modelled from the spec — the pairwise generator on a length-n list
produces exactly n(n-1)/2 pairs; the produced list is the image of the
index pairs `(i, j)` with `i < j < n` in enumeration order; each index
pair appears exactly once; and one oracle call is issued per generated
pair, in order. -/
theorem pairwisePairs_complete :
    (∀ l : List (List Char),
      (pairwisePairs l).length = l.length * (l.length - 1) / 2) ∧
    (∀ l : List (List Char),
      pairwisePairs l =
        (indexPairs l.length).map fun ij => (l.getD ij.1 [], l.getD ij.2 [])) ∧
    (∀ n i j, (i, j) ∈ indexPairs n ↔ i < j ∧ j < n) ∧
    (∀ n, (indexPairs n).Nodup) ∧
    (∀ (β : Type) (oracle : List Char × List Char → β) (l : List (List Char)),
      (runPairwise oracle l).map Prod.fst = pairwisePairs l) := by
  refine ⟨length_pairwisePairs, ?_, mem_indexPairs, ?_, ?_⟩
  · intro l
    conv_lhs => rw [← map_getD_range ([] : List Char) l]
    rw [pairwisePairs_map]
    rfl
  · intro n
    exact nodup_pairwisePairs (List.range n) (List.nodup_range n)
  · intro β oracle l
    rw [runPairwise, List.map_map]
    have hid : (Prod.fst ∘ fun p : List Char × List Char => (p, oracle p)) = id := by
      funext p
      rfl
    rw [hid, List.map_id]

/-- Witness for C8 at a concrete input: the index pair `(0, 1)` is
generated for a three-item list. -/
theorem pairwisePairs_complete_witness :
    ((0, 1) : Nat × Nat) ∈ indexPairs 3 :=
  (pairwisePairs_complete.2.2.1 3 0 1).mpr (by decide)

end App
